import Mathlib

/-!
Verification of the `gotoqueue` worker-pool library (files `pool.go` and the
worker file) against its specification.

Shallow embedding conventions:
- Go machine integers are `Nat`/`Int` with explicit wrapping (`% 2^32`,
  two's-complement `wrap64`) where the source can overflow.
- `time.Time` is a `Nat` instant; the zero `time.Time` is `Option.none`.
- A Go `map[string]interface{}` is an association list `Metadata` with
  map-update (`mset`) and lookup (`mget`).
- A `context.Context` is a `Ctx`: a cancellation flag plus the chain of
  values installed by `context.WithValue` (newest first, as `ctx.Value`
  resolves innermost wrappers first).
- The body of a unit of work `func(context.Context)` is abstracted by its
  observable behaviour `FnBeh`: it either returns or panics with a value.
- Channels are FIFO lists; a blocking send appends at admission time, which
  is exactly the point where the global per-buffer order is established.
-/

namespace GoToQueue

/-! ### murmur3 32-bit hash (vendored dependency `murmur3.Sum32`, seed 0)

The KeyBased branch of `Pool.to` (pool.go lines 75-78) hashes the key bytes
with murmur3 x86 32-bit. The embedding below follows the reference
algorithm over byte lists, with all 32-bit arithmetic taken `% 2^32`. -/

def u32 (n : Nat) : Nat := n % 4294967296

def rotl32 (x r : Nat) : Nat := u32 ((x <<< r) ||| (x >>> (32 - r)))

def mm3C1 : Nat := 0xcc9e2d51

def mm3C2 : Nat := 0x1b873593

def mm3Step (h k : Nat) : Nat :=
  let k := u32 (k * mm3C1)
  let k := rotl32 k 15
  let k := u32 (k * mm3C2)
  let h := u32 (h ^^^ k)
  let h := rotl32 h 13
  u32 (h * 5 + 0xe6546b64)

def mm3TailK : List Nat → Nat
  | [] => 0
  | [b0] => b0
  | [b0, b1] => b0 ||| (b1 <<< 8)
  | [b0, b1, b2] => b0 ||| (b1 <<< 8) ||| (b2 <<< 16)
  | _ => 0

def mm3Go (h : Nat) : List Nat → Nat
  | b0 :: b1 :: b2 :: b3 :: rest =>
      mm3Go (mm3Step h (b0 ||| (b1 <<< 8) ||| (b2 <<< 16) ||| (b3 <<< 24))) rest
  | t => u32 (h ^^^ (u32 (rotl32 (u32 (mm3TailK t * mm3C1)) 15 * mm3C2)))

def fmix32 (h0 : Nat) : Nat :=
  let h := h0 ^^^ (h0 >>> 16)
  let h := u32 (h * 0x85ebca6b)
  let h := h ^^^ (h >>> 13)
  let h := u32 (h * 0xc2b2ae35)
  h ^^^ (h >>> 16)

/-- UTF-8 encoding of one code point, as `[]byte(k)` produces for each rune
of a Go string. -/
def utf8Bytes (c : Nat) : List Nat :=
  if c < 0x80 then [c]
  else if c < 0x800 then [0xC0 ||| (c >>> 6), 0x80 ||| (c &&& 0x3F)]
  else if c < 0x10000 then
    [0xE0 ||| (c >>> 12), 0x80 ||| ((c >>> 6) &&& 0x3F), 0x80 ||| (c &&& 0x3F)]
  else
    [0xF0 ||| (c >>> 18), 0x80 ||| ((c >>> 12) &&& 0x3F),
      0x80 ||| ((c >>> 6) &&& 0x3F), 0x80 ||| (c &&& 0x3F)]

/-- The byte sequence `[]byte(k)` of a Go string: UTF-8 bytes. -/
def strBytes (s : String) : List Nat := s.data.flatMap (fun ch => utf8Bytes ch.toNat)

def murmur3Sum32 (bytes : List Nat) : Nat :=
  fmix32 (u32 (mm3Go 0 bytes ^^^ u32 bytes.length))

/-! ### Data model -/

/-- Values stored in a `map[string]interface{}` metadata bag: the engine
writes booleans, strings, times and ints; caller values are tagged. -/
inductive MVal where
  | vB : Bool → MVal
  | vS : String → MVal
  | vT : Nat → MVal
  | vI : Int → MVal
  | vUser : Nat → MVal
deriving DecidableEq, Repr

/-- A Go string-keyed map as an association list without duplicate keys
(`mset` preserves that shape). -/
abbrev Metadata := List (String × MVal)

/-- Go map update `m[k] = v`: replace the binding if the key is present,
otherwise append it. -/
def mset (m : Metadata) (k : String) (v : MVal) : Metadata :=
  match m with
  | [] => [(k, v)]
  | (k', v') :: t => if k' = k then (k, v) :: t else (k', v') :: mset t k v

/-- Go map lookup `m[k]`. -/
def mget (m : Metadata) (k : String) : Option MVal :=
  match m with
  | [] => none
  | (k', v') :: t => if k' = k then some v' else mget t k

/-- A `context.Context` as seen by this engine: whether `ctx.Done()` has
fired, and the `context.WithValue` chain (newest binding first). -/
structure Ctx where
  cancelled : Bool
  values : List (String × MVal)
deriving DecidableEq, Repr

/-- `context.WithValue(c, k, v)`: wraps the context; lookups see the newest
binding first. -/
def Ctx.withValue (c : Ctx) (k : String) (v : MVal) : Ctx :=
  { c with values := (k, v) :: c.values }

/-- `context.Background()`. -/
def ctxBackground : Ctx := { cancelled := false, values := [] }

/-- MetadataKey wraps a string to create a unique context key
(worker file lines 13-16). -/
def MetadataKey (key : String) : String := "metadata:" ++ key

/-- Observable behaviour of a unit of work `func(context.Context)`:
it either returns normally or panics with a (formatted) value. -/
inductive FnBeh where
  | ret : FnBeh
  | panics : String → FnBeh
deriving DecidableEq, Repr

/-- QueueItem as built by `Pool.Enqueue` (pool.go lines 279-286): routing
key, unit of work (`none` models a nil function), optional context,
optional metadata map, enqueue time, expiration time (`none` models the
zero `time.Time`). -/
structure QueueItem where
  key : String
  fn : Option FnBeh
  ctx : Option Ctx
  metadata : Option Metadata
  enqueueTime : Nat
  expireTime : Option Nat
deriving DecidableEq, Repr

/-- Modelled from the spec: `QueueItem.IsExpired` is not among the provided
source files. Spec §3: "expireAt: optional Timestamp — if set and now ≥
expireAt at the moment of dequeue, the task is discarded unexecuted." -/
def QueueItem.IsExpired (now : Nat) (it : QueueItem) : Bool :=
  match it.expireTime with
  | some t => decide (t ≤ now)
  | none => false

/-- Modelled from the spec: `QueueItem.IsCancelled` is not among the
provided source files. Spec §3/§4.2: the task's cancellation handle "is
already triggered" — i.e. the attached context's Done channel has fired. -/
def QueueItem.IsCancelled (it : QueueItem) : Bool :=
  match it.ctx with
  | some c => c.cancelled
  | none => false

/-! ### Routing (`Pool.to`, pool.go lines 69-79) -/

/-- Strategy constant `KeyBased` (Go `Strategy` is an `int`, iota 0). -/
def KeyBased : Int := 0

/-- Strategy constant `RoundRobin` (iota 1). -/
def RoundRobin : Int := 1

/-- Immutable pool configuration: the strategy and the worker count
(`p.strategy`, `p.size`), both fixed at construction. -/
structure PoolCfg where
  strategy : Int
  size : Nat
deriving DecidableEq, Repr

/-- Two's-complement wrap of an integer into the `int64` range
`[-2^63, 2^63)`, as Go's `int64` arithmetic does on overflow. -/
def wrap64 (n : Int) : Int := (n + 2 ^ 63) % 2 ^ 64 - 2 ^ 63

/-- The key-based worker index: `int(murmur3.Sum32([]byte(k))) % p.size`
(pool.go lines 76-77). The `uint32` hash is non-negative and fits `int`,
so the Go `%` agrees with `Nat.mod`. -/
def kbIndex (size : Nat) (k : String) : Nat := murmur3Sum32 (strBytes k) % size

/-- `Pool.to` (pool.go lines 69-79) as an explicit state transformer over
the atomic round-robin counter `p.roundRobinIndex` (an `int64`): returns
the chosen index and the new counter. `atomic.AddInt64` increments with
`int64` wrap-around; `index-1` is again `int64` arithmetic; Go's `%` on
ints is truncated division remainder (`Int.tmod`). The `switch` sends
`RoundRobin` to the counter branch and every other strategy value to the
hash branch (`default`). -/
def Pool.to (cfg : PoolCfg) (rr : Int) (k : String) : Int × Int :=
  if cfg.strategy = RoundRobin then
    let index := wrap64 (rr + 1)
    (Int.tmod (wrap64 (index - 1)) (cfg.size : Int), index)
  else
    ((kbIndex cfg.size k : Nat), rr)

/-- Iterate `Pool.to` from a given counter state, collecting the chosen
indices of `n` successive routing calls (the key is irrelevant in the
round-robin branch and constant here). -/
def toCalls (cfg : PoolCfg) (k : String) : Int → Nat → List Int
  | _, 0 => []
  | rr, n + 1 =>
      let r := Pool.to cfg rr k
      r.1 :: toCalls cfg k r.2 n

/-! ### Construction (`NewPool`, pool.go lines 84-122) -/

/-- Initial state of one worker as `NewPool` builds it: its 0-based id, the
channel capacity, and the (empty) buffer contents. -/
structure WorkerInit where
  id : Nat
  queueCap : Nat
  queue : List QueueItem
deriving DecidableEq, Repr

/-- Result of `NewPool`: the fields of the freshly built `Pool`, plus
whether the invalid-strategy warning (`log.Printf`) was emitted. -/
structure PoolInit where
  size : Nat
  strategy : Int
  isRunning : Bool
  workers : List WorkerInit
  warned : Bool
deriving DecidableEq, Repr

/-- `NewPool` (pool.go lines 84-122): an unrecognized strategy falls back
to `KeyBased` with a logged warning; `poolSize <= 0` falls back to 1;
`bufferSize <= 0` falls back to 100; then one worker per index with a
fresh buffered channel. It never fails. -/
def NewPool (poolSize bufferSize : Int) (s : Int) : PoolInit :=
  let bad := s ≠ KeyBased ∧ s ≠ RoundRobin
  let s := if s ≠ KeyBased ∧ s ≠ RoundRobin then KeyBased else s
  let poolSize := if poolSize ≤ 0 then 1 else poolSize
  let bufferSize := if bufferSize ≤ 0 then 100 else bufferSize
  { size := poolSize.toNat
    strategy := s
    isRunning := false
    workers := (List.range poolSize.toNat).map
      (fun i => { id := i, queueCap := bufferSize.toNat, queue := [] })
    warned := decide bad }

/-! ### Admission (`Pool.Enqueue`, pool.go lines 240-290) -/

/-- Admission options produced by the (out-of-scope) options builder:
expiration instant (`none` = zero time, i.e. `IsZero()`), optional
context, optional metadata map. -/
structure EnqOptions where
  expireTime : Option Nat
  itemCtx : Option Ctx
  metadata : Option Metadata
deriving DecidableEq, Repr

/-- The three admission errors `ErrQueueNotRunning`, `ErrQueueItemExpired`,
`ErrQueueItemCancelled` returned by `Pool.Enqueue`. -/
inductive EnqErr where
  | notRunning : EnqErr
  | itemExpired : EnqErr
  | itemCancelled : EnqErr
deriving DecidableEq, Repr

/-- The admission expiry check (pool.go line 254):
`!options.expireTime.IsZero() && time.Now().After(options.expireTime)`. -/
def timeExpired (now : Nat) (et : Option Nat) : Bool :=
  match et with
  | some t => decide (t < now)
  | none => false

/-- The admission cancellation check (pool.go lines 259-265): the select on
`options.itemCtx.Done()` with a default branch. -/
def ctxCancelled (c : Option Ctx) : Bool :=
  match c with
  | some c => c.cancelled
  | none => false

/-- The metadata copy made by `Pool.Enqueue` (pool.go lines 270-277): a
fresh map receiving every entry of the caller's map. -/
def copyMetadata (m : Metadata) : Metadata :=
  m.foldl (fun acc p => mset acc p.1 p.2) []

/-- The `QueueItem` literal of pool.go lines 279-286. -/
def mkItem (now : Nat) (key : String) (fn : Option FnBeh) (opts : EnqOptions) : QueueItem :=
  { key := key
    fn := fn
    ctx := opts.itemCtx
    metadata := opts.metadata.map copyMetadata
    enqueueTime := now
    expireTime := opts.expireTime }

/-- Mutable pool state touched by admission: the running flag, the
round-robin counter, and every worker's buffer contents (send order). -/
structure PoolState where
  isRunning : Bool
  rr : Int
  buffers : List (List QueueItem)
deriving DecidableEq, Repr

/-- A channel send `p.workers[i].queue <- item`: appends to buffer `i`. -/
def sendTo (bufs : List (List QueueItem)) (i : Nat) (it : QueueItem) :
    List (List QueueItem) :=
  bufs.set i (bufs.getD i [] ++ [it])

/-- `Pool.Enqueue` (pool.go lines 240-290) as one atomic action (the
sequential-admission view; the two-step interleaved view used for the
shutdown race is `RaceStep` below): check the running flag, reject already
expired or already cancelled submissions before routing, otherwise route,
copy the metadata, and send. Errors leave the state untouched. -/
def Pool.enqueue (cfg : PoolCfg) (st : PoolState) (now : Nat) (key : String)
    (fn : Option FnBeh) (opts : EnqOptions) : Except EnqErr Nat × PoolState :=
  if st.isRunning = false then
    (Except.error EnqErr.notRunning, st)
  else if timeExpired now opts.expireTime then
    (Except.error EnqErr.itemExpired, st)
  else if ctxCancelled opts.itemCtx then
    (Except.error EnqErr.itemCancelled, st)
  else
    let r := Pool.to cfg st.rr key
    let widx := r.1.toNat
    (Except.ok widx,
      { st with rr := r.2, buffers := sendTo st.buffers widx (mkItem now key fn opts) })

/-! ### Worker execution (worker file lines 42-172) -/

/-- Result of `Worker.safeExecute`: the recovery flag and panic value it
returns, the item as mutated (context projection, fault metadata), and how
often a panic handler (configured or default) ran. -/
structure ExecResult where
  recovered : Bool
  panicValue : Option String
  item : QueueItem
  handlerCalls : Nat
deriving DecidableEq, Repr

/-- `Worker.safeExecute` (worker file lines 129-172). Before invoking the
unit of work it projects every metadata entry into the context under
`MetadataKey` (lines 164-167). A normal return yields `(false, nil)`. A
panic is recovered by the deferred handler: it captures the stack trace
(the `stackTrace` argument abstracts `debug.Stack()`, which is never
empty), invokes the configured panic handler or `DefaultPanicHandler`
exactly once, and stores the five diagnostic entries into the item's
metadata (allocating the map if it was nil). The spec calls these the
fault fields; the literal map keys in the source are `panic_recovered`,
`panic_value`, `panic_time`, `worker_id`, `stack_trace`. -/
def Worker.safeExecute (wid now : Nat) (stackTrace : String) (it : QueueItem)
    (beh : FnBeh) : ExecResult :=
  let it :=
    match it.ctx, it.metadata with
    | some c, some m =>
        { it with ctx := some (m.foldl (fun cc p => cc.withValue (MetadataKey p.1) p.2) c) }
    | _, _ => it
  match beh with
  | FnBeh.ret => { recovered := false, panicValue := none, item := it, handlerCalls := 0 }
  | FnBeh.panics v =>
      let m0 := it.metadata.getD []
      let m1 := mset m0 ("panic_recovered") (MVal.vB true)
      let m2 := mset m1 ("panic_value") (MVal.vS v)
      let m3 := mset m2 ("panic_time") (MVal.vT now)
      let m4 := mset m3 ("worker_id") (MVal.vI wid)
      let m5 := mset m4 ("stack_trace") (MVal.vS stackTrace)
      { recovered := true
        panicValue := some v
        item := { it with metadata := some m5 }
        handlerCalls := 1 }

/-- Observable per-item events of a worker's loop. `executed` records the
invocation of the unit of work (launch of `safeExecute`) together with the
recovery flag it produced. -/
inductive WEvent where
  | skippedExpired : QueueItem → WEvent
  | skippedCancelled : QueueItem → WEvent
  | executed : QueueItem → Bool → WEvent
deriving DecidableEq, Repr

/-- The `item.ctx = context.Background()` installation of worker file line
90, applied only when the dequeued item carries no context. -/
def ctxAdjust (it : QueueItem) : QueueItem :=
  if it.ctx.isSome then it else { it with ctx := some ctxBackground }

/-- The steady-state `item := <-w.queue` branch of `Worker.start` (worker
file lines 47-100): expiry check first, then cancellation check, then — if
the function is non-nil — execution. When the item has a context the work
runs in a goroutine raced against `ctx.Done()`; the invocation of
`safeExecute` happens in dequeue order either way, and only the logging
depends on which select arm fires, so the event records the invocation and
its recovery outcome. When the item has no context, the loop installs
`context.Background()` first (line 90) and executes directly. -/
def Worker.processItem (wid now : Nat) (stk : String) (it : QueueItem) : List WEvent :=
  if it.IsExpired now then [WEvent.skippedExpired it]
  else if it.IsCancelled then [WEvent.skippedCancelled it]
  else
    match it.fn with
    | none => []
    | some beh =>
        [WEvent.executed it (Worker.safeExecute wid now stk (ctxAdjust it) beh).recovered]

/-- One item of the drain loop (worker file lines 107-118): a single
combined guard `!expired && !cancelled && fn != nil`, short-circuiting left
to right, then `safeExecute` on the item as-is. Skipped items produce no
event (the drain path does not even log them). -/
def Worker.drainItem (wid now : Nat) (stk : String) (it : QueueItem) : List WEvent :=
  if !(it.IsExpired now) && !it.IsCancelled && it.fn.isSome then
    match it.fn with
    | none => []
    | some beh => [WEvent.executed it (Worker.safeExecute wid now stk it beh).recovered]
  else []

/-- The steady-state loop over the (FIFO) buffer contents: each dequeued
item is fully handled before the next is dequeued. -/
def Worker.runSteady (wid now : Nat) (stk : String) : List QueueItem → List WEvent
  | [] => []
  | it :: rest => Worker.processItem wid now stk it ++ Worker.runSteady wid now stk rest

/-- The drain loop run by `Worker.start` after the stop signal (worker file
lines 102-123): it consumes whatever is buffered, without waiting for new
arrivals, then returns. -/
def Worker.runDrain (wid now : Nat) (stk : String) : List QueueItem → List WEvent
  | [] => []
  | it :: rest => Worker.drainItem wid now stk it ++ Worker.runDrain wid now stk rest

/-- The items whose unit of work was actually invoked, in invocation
order. -/
def executedTrace (evs : List WEvent) : List QueueItem :=
  evs.filterMap (fun e =>
    match e with
    | WEvent.executed it _ => some it
    | _ => none)

/-- An item that passes both dequeue checks and carries a function. -/
def validItem (now : Nat) (it : QueueItem) : Bool :=
  !(it.IsExpired now) && !it.IsCancelled && it.fn.isSome

/-- The buffers of a `KeyBased` pool of `size` workers after the admission
sequence `adm` has been sent, in admission order, each task by one blocking
send into the buffer chosen by `Pool.to`'s hash branch. -/
def admitAll (size : Nat) (adm : List QueueItem) : List (List QueueItem) :=
  adm.foldl (fun bufs it => sendTo bufs (kbIndex size it.key) it) (List.replicate size [])

/-! ### The Stop/Enqueue interleaving (pool.go lines 212-235 and 240-290)

`Pool.Enqueue` touches shared state at exactly two points: the locked read
of `p.isRunning` (lines 244-246) and the unlocked channel send (line 288);
the checks, routing and metadata copy in between touch no shared state.
`Pool.Stop` holds the mutex for its whole sequence (flag flip, stop
broadcast, wait for every drain, close every buffer), so it is one atomic
step relative to `Enqueue`'s two. The configuration below is the shared
state plus one enqueuer's and one stopper's program counters. -/

/-- A worker's channel as shutdown sees it: contents plus closed flag. -/
structure CBuf where
  items : List QueueItem
  closed : Bool
deriving DecidableEq, Repr

/-- Shared state of the race model: the running flag, every worker's
channel, and the events produced by the workers' drain loops. -/
structure SysSt where
  isRunning : Bool
  bufs : List CBuf
  drained : List WEvent
deriving DecidableEq, Repr

/-- Program counter of one `Enqueue` caller. -/
inductive EnqPhase where
  | ready : String → Option FnBeh → EnqOptions → EnqPhase
  | passedCheck : QueueItem → Nat → EnqPhase
  | rejected : EnqErr → EnqPhase
  | sent : Nat → EnqPhase
  | crashed : EnqPhase
deriving DecidableEq, Repr

/-- Program counter of one `Stop` caller. -/
inductive StopPhase where
  | ready : StopPhase
  | done : StopPhase
deriving DecidableEq, Repr

/-- Default used when reading a channel slot out of range (never happens on
reachable configurations). -/
def cbufDefault : CBuf := { items := [], closed := true }

/-- Everything the workers emit while draining all buffers at shutdown. -/
def drainAll (now : Nat) (stk : String) (bufs : List CBuf) : List WEvent :=
  (List.range bufs.length).flatMap
    (fun i => Worker.runDrain i now stk (bufs.getD i cbufDefault).items)

/-- Interleaved small-step semantics of one `Enqueue` racing one `Stop`
over a `KeyBased` pool. `check*`: the locked read of `p.isRunning` plus
the stateless admission checks, ending at the routed send or a synchronous
rejection. `sendOk`/`sendClosed`: the channel send of line 288 — sending
on a closed channel is a Go runtime panic (`crashed`). `stop`: the whole
of `Pool.Stop` under the mutex — flag down, every buffer drained by its
worker, every buffer closed. -/
inductive RaceStep (cfg : PoolCfg) (now : Nat) (stk : String) :
    SysSt × EnqPhase × StopPhase → SysSt × EnqPhase × StopPhase → Prop
  | checkPass (sys : SysSt) (sp : StopPhase) (key : String) (fn : Option FnBeh)
      (opts : EnqOptions) :
      sys.isRunning = true →
      timeExpired now opts.expireTime = false →
      ctxCancelled opts.itemCtx = false →
      RaceStep cfg now stk (sys, EnqPhase.ready key fn opts, sp)
        (sys, EnqPhase.passedCheck (mkItem now key fn opts) (kbIndex cfg.size key), sp)
  | checkNotRunning (sys : SysSt) (sp : StopPhase) (key : String) (fn : Option FnBeh)
      (opts : EnqOptions) :
      sys.isRunning = false →
      RaceStep cfg now stk (sys, EnqPhase.ready key fn opts, sp)
        (sys, EnqPhase.rejected EnqErr.notRunning, sp)
  | sendOk (sys : SysSt) (sp : StopPhase) (it : QueueItem) (i : Nat) :
      (sys.bufs.getD i cbufDefault).closed = false →
      RaceStep cfg now stk (sys, EnqPhase.passedCheck it i, sp)
        (SysSt.mk sys.isRunning
          (sys.bufs.set i (CBuf.mk ((sys.bufs.getD i cbufDefault).items ++ [it]) false))
          sys.drained,
          EnqPhase.sent i, sp)
  | sendClosed (sys : SysSt) (sp : StopPhase) (it : QueueItem) (i : Nat) :
      (sys.bufs.getD i cbufDefault).closed = true →
      RaceStep cfg now stk (sys, EnqPhase.passedCheck it i, sp)
        (sys, EnqPhase.crashed, sp)
  | stop (sys : SysSt) (ep : EnqPhase) :
      sys.isRunning = true →
      RaceStep cfg now stk (sys, ep, StopPhase.ready)
        (SysSt.mk false (sys.bufs.map (fun _b => CBuf.mk [] true))
          (sys.drained ++ drainAll now stk sys.bufs),
          ep, StopPhase.done)

/-! ### Metadata aliasing at admission (pool.go lines 270-277)

Aliasing is invisible in pure values, so the copy made by `Enqueue` is
stated over an explicit store of maps: a reference is an index into the
store, the caller's map lives at one index, and the copy loop allocates a
fresh slot holding `copyMetadata` of the caller's map. -/

/-- Read the map a reference points to. -/
def heapGet (h : List Metadata) (r : Nat) : Metadata := h.getD r []

/-- Overwrite the map a reference points to (the caller mutating its own
map after `Enqueue` returned). -/
def heapSet (h : List Metadata) (r : Nat) (m : Metadata) : List Metadata := h.set r m

/-- The metadata-copy fragment of `Pool.Enqueue` (pool.go lines 270-277)
over the store: `itemMetadata = make(...)` allocates a fresh slot, the
loop copies every entry of the caller's map `r` into it, and the built
item holds the fresh reference (the returned index). -/
def enqueueCopyMeta (h : List Metadata) (r : Nat) : List Metadata × Nat :=
  (h ++ [copyMetadata (heapGet h r)], h.length)

/-- The keys of a metadata map, in order. -/
def mkeys (m : Metadata) : List String := m.map Prod.fst

/-! ### Concrete inputs used by the witnesses -/

/-- A plain valid task with key "a". -/
def witA1 : QueueItem :=
  { key := "a", fn := some FnBeh.ret, ctx := none, metadata := none
    enqueueTime := 0, expireTime := none }

/-- A plain valid task with key "b". -/
def witB1 : QueueItem :=
  { key := "b", fn := some FnBeh.ret, ctx := none, metadata := none
    enqueueTime := 1, expireTime := none }

/-- A second valid task with key "a", distinguishable from `witA1`. -/
def witA2 : QueueItem :=
  { key := "a", fn := some FnBeh.ret, ctx := none, metadata := none
    enqueueTime := 2, expireTime := none }

/-- A task whose expiration (instant 3) has passed at dequeue time 5. -/
def witExpired : QueueItem :=
  { key := "e", fn := some FnBeh.ret, ctx := none, metadata := none
    enqueueTime := 0, expireTime := some 3 }

/-- A task whose cancellation handle has already fired. -/
def witCancelled : QueueItem :=
  { key := "c", fn := some FnBeh.ret, ctx := some (Ctx.mk true [])
    metadata := none, enqueueTime := 0, expireTime := none }

/-- A task whose unit of work panics with value "boom". -/
def witPanics : QueueItem :=
  { key := "p", fn := some (FnBeh.panics "boom"), ctx := none
    metadata := some [("job", MVal.vUser 7)], enqueueTime := 0, expireTime := none }

/-! ### Helper lemmas: maps -/

theorem mget_mset_self (m : Metadata) (k : String) (v : MVal) :
    mget (mset m k v) k = some v := by
  induction m with
  | nil => simp [mset, mget]
  | cons p t ih =>
      obtain ⟨a, b⟩ := p
      by_cases hak : a = k
      · simp [mset, hak, mget]
      · simp [mset, hak, mget, ih]

theorem mget_mset_ne (m : Metadata) (k k' : String) (v : MVal) (h : k' ≠ k) :
    mget (mset m k v) k' = mget m k' := by
  induction m with
  | nil => simp [mset, mget, Ne.symm h]
  | cons p t ih =>
      obtain ⟨a, b⟩ := p
      by_cases hak : a = k
      · subst hak
        simp [mset, mget, Ne.symm h]
      · simp only [mset, if_neg hak]
        by_cases hak' : a = k'
        · simp [mget, hak']
        · simp [mget, hak', ih]

theorem isSome_mget_mset (m : Metadata) (k k' : String) (v : MVal)
    (h : (mget m k').isSome) : (mget (mset m k v) k').isSome := by
  by_cases hk : k' = k
  · subst hk; rw [mget_mset_self]; rfl
  · rwa [mget_mset_ne m k k' v hk]

theorem mget_append (m m' : Metadata) (k : String) :
    mget (m ++ m') k = ((mget m k).rec (mget m' k) (fun v => some v) : Option MVal) := by
  induction m with
  | nil => simp [mget]
  | cons p t ih =>
      obtain ⟨a, b⟩ := p
      by_cases hak : a = k
      · simp [mget, hak]
      · simp [mget, hak, ih]

theorem mget_eq_none (m : Metadata) (k : String) (h : k ∉ mkeys m) :
    mget m k = none := by
  induction m with
  | nil => simp [mget]
  | cons p t ih =>
      obtain ⟨a, b⟩ := p
      simp only [mkeys, List.map_cons, List.mem_cons] at h
      push_neg at h
      simp [mget, Ne.symm h.1, ih (by simpa [mkeys] using h.2)]

theorem copyMetadata_mget (m : Metadata) (hnd : (mkeys m).Nodup) (k : String) :
    mget (copyMetadata m) k = mget m k := by
  induction m using List.reverseRecOn with
  | nil => rfl
  | append_singleton t p ih =>
      have hkeys : mkeys (t ++ [p]) = mkeys t ++ [p.1] := by simp [mkeys]
      rw [hkeys] at hnd
      have hnt : (mkeys t).Nodup := hnd.of_append_left
      have hpf : p.1 ∉ mkeys t := by
        have := List.disjoint_of_nodup_append hnd
        intro hmem
        exact this hmem (List.mem_singleton_self _)
      have hcopy : copyMetadata (t ++ [p]) = mset (copyMetadata t) p.1 p.2 := by
        simp [copyMetadata, List.foldl_append]
      rw [hcopy]
      by_cases hk : k = p.1
      · subst hk
        rw [mget_mset_self, mget_append, mget_eq_none t _ hpf]
        simp [mget]
      · rw [mget_mset_ne _ _ _ _ hk, ih hnt, mget_append]
        cases hmt : mget t k with
        | some v => rfl
        | none => simp [mget, Ne.symm hk]

/-! ### Helper lemmas: safeExecute -/

theorem safeExecute_panics_metadata (wid now : Nat) (stk : String) (it : QueueItem)
    (v : String) :
    (Worker.safeExecute wid now stk it (FnBeh.panics v)).item.metadata =
      some (mset (mset (mset (mset (mset (it.metadata.getD []) ("panic_recovered")
        (MVal.vB true)) ("panic_value") (MVal.vS v)) ("panic_time") (MVal.vT now))
        ("worker_id") (MVal.vI wid)) ("stack_trace") (MVal.vS stk)) := by
  cases hc : it.ctx with
  | none => simp [Worker.safeExecute, hc]
  | some c =>
      cases hm : it.metadata with
      | none => simp [Worker.safeExecute, hc, hm]
      | some m => simp [Worker.safeExecute, hc, hm]

theorem safeExecute_panics_recovered (wid now : Nat) (stk : String) (it : QueueItem)
    (v : String) :
    (Worker.safeExecute wid now stk it (FnBeh.panics v)).recovered = true := by
  cases hc : it.ctx with
  | none => simp [Worker.safeExecute, hc]
  | some c =>
      cases hm : it.metadata with
      | none => simp [Worker.safeExecute, hc, hm]
      | some m => simp [Worker.safeExecute, hc, hm]

theorem safeExecute_panics_handler (wid now : Nat) (stk : String) (it : QueueItem)
    (v : String) :
    (Worker.safeExecute wid now stk it (FnBeh.panics v)).handlerCalls = 1 := by
  cases hc : it.ctx with
  | none => simp [Worker.safeExecute, hc]
  | some c =>
      cases hm : it.metadata with
      | none => simp [Worker.safeExecute, hc, hm]
      | some m => simp [Worker.safeExecute, hc, hm]

/-! ### Helper lemmas: worker loop and buffers -/

theorem processItem_valid (wid now : Nat) (stk : String) (it : QueueItem)
    (beh : FnBeh) (hf : it.fn = some beh)
    (he : it.IsExpired now = false) (hc : it.IsCancelled = false) :
    Worker.processItem wid now stk it
      = [WEvent.executed it (Worker.safeExecute wid now stk (ctxAdjust it) beh).recovered] := by
  simp [Worker.processItem, he, hc, hf]

theorem executedTrace_append (a b : List WEvent) :
    executedTrace (a ++ b) = executedTrace a ++ executedTrace b := by
  simp [executedTrace]

theorem executedTrace_runSteady (wid now : Nat) (stk : String) (buf : List QueueItem)
    (h : ∀ it ∈ buf, validItem now it = true) :
    executedTrace (Worker.runSteady wid now stk buf) = buf := by
  induction buf with
  | nil => rfl
  | cons it t ih =>
      have hv := h it (List.mem_cons_self it t)
      simp only [validItem, Bool.and_eq_true, Bool.not_eq_true'] at hv
      obtain ⟨⟨he, hc⟩, hf⟩ := hv
      obtain ⟨beh, hbeh⟩ := Option.isSome_iff_exists.mp hf
      rw [Worker.runSteady, executedTrace_append,
        processItem_valid wid now stk it beh hbeh he hc,
        ih (fun x hx => h x (List.mem_cons_of_mem _ hx))]
      rfl

theorem sendTo_length (bufs : List (List QueueItem)) (i : Nat) (it : QueueItem) :
    (sendTo bufs i it).length = bufs.length := by
  simp [sendTo]

theorem getD_sendTo_self (bufs : List (List QueueItem)) (i : Nat) (it : QueueItem)
    (h : i < bufs.length) :
    (sendTo bufs i it).getD i [] = bufs.getD i [] ++ [it] := by
  simp [sendTo, List.getD, List.getElem?_set_self (by omega : i < bufs.length)]

theorem getD_sendTo_ne (bufs : List (List QueueItem)) (i j : Nat) (it : QueueItem)
    (h : i ≠ j) :
    (sendTo bufs i it).getD j [] = bufs.getD j [] := by
  simp [sendTo, List.getD, List.getElem?_set_ne h]

theorem admit_go (size : Nat) (adm : List QueueItem)
    (bufs : List (List QueueItem)) (i : Nat) (hlen : bufs.length = size) (hi : i < size) :
    (adm.foldl (fun bs it => sendTo bs (kbIndex size it.key) it) bufs).getD i []
      = bufs.getD i [] ++ adm.filter (fun it => decide (kbIndex size it.key = i)) := by
  induction adm generalizing bufs with
  | nil => simp
  | cons it t ih =>
      rw [List.foldl_cons, List.filter_cons]
      have hlen' : (sendTo bufs (kbIndex size it.key) it).length = size := by
        rw [sendTo_length]; exact hlen
      rw [ih (sendTo bufs (kbIndex size it.key) it) hlen']
      by_cases hroute : kbIndex size it.key = i
      · rw [hroute, getD_sendTo_self bufs i it (by omega)]
        simp
      · rw [getD_sendTo_ne bufs _ i it hroute]
        simp [hroute]

theorem admitAll_getD (size : Nat) (adm : List QueueItem) (i : Nat)
    (hi : i < size) :
    (admitAll size adm).getD i []
      = adm.filter (fun it => decide (kbIndex size it.key = i)) := by
  rw [admitAll, admit_go size adm (List.replicate size []) i (by simp) hi]
  simp

theorem filter_key_of_filter_route (size : Nat) (k : String) (adm : List QueueItem) :
    ((adm.filter (fun it => decide (kbIndex size it.key = kbIndex size k))).filter
        (fun it => decide (it.key = k)))
      = adm.filter (fun it => decide (it.key = k)) := by
  induction adm with
  | nil => rfl
  | cons it t ih =>
      by_cases hk : it.key = k
      · have hroute : kbIndex size it.key = kbIndex size k := by rw [hk]
        simp [List.filter_cons, hroute, hk, ih]
      · by_cases hroute : kbIndex size it.key = kbIndex size k
        · simp [List.filter_cons, hroute, hk, ih]
        · simp [List.filter_cons, hroute, hk, ih]

/-! ### Helper lemmas: round-robin counter -/

theorem wrap64_fixed (n : Int) (h1 : -(2 ^ 63) ≤ n) (h2 : n < 2 ^ 63) : wrap64 n = n := by
  unfold wrap64; omega

theorem wrap64_inc_dec (s : Nat) (h : s < 2 ^ 63) :
    wrap64 (wrap64 ((s : Int) + 1) - 1) = (s : Int) := by
  unfold wrap64; omega

theorem to_roundRobin (P : Nat) (k : String) (s : Nat) (hs : s < 2 ^ 63) :
    Pool.to (PoolCfg.mk RoundRobin P) (s : Int) k
      = (((s % P : Nat) : Int), wrap64 ((s : Int) + 1)) := by
  simp only [Pool.to, RoundRobin]
  rw [wrap64_inc_dec s hs, ← Int.ofNat_tmod]
  simp

theorem toCalls_rr (P : Nat) (k : String) (s n : Nat) (hs : s + n ≤ 2 ^ 63) :
    toCalls (PoolCfg.mk RoundRobin P) k (s : Int) n
      = (List.range' s n).map (fun j => ((j % P : Nat) : Int)) := by
  induction n generalizing s with
  | zero => rfl
  | succ m ih =>
      rw [toCalls, to_roundRobin P k s (by omega), List.range'_succ, List.map_cons]
      cases m with
      | zero => rfl
      | succ m' =>
          have hs1 : wrap64 ((s : Int) + 1) = ((s + 1 : Nat) : Int) := by
            rw [wrap64_fixed _ (by omega) (by push_cast; omega)]
            push_cast
            ring
          rw [hs1, ih (s + 1) (by omega)]

theorem count_mod_range (P i : Nat) (hP : 0 < P) (hi : i < P) :
    ∀ N, ((List.range N).map (fun j => j % P)).count i
        = if i < N % P then N / P + 1 else N / P := by
  intro N
  induction N with
  | zero => simp
  | succ n ih =>
      rw [List.range_succ, List.map_append, List.count_append, ih]
      have hrP : n % P < P := Nat.mod_lt _ hP
      have hn : n + 1 = P * (n / P) + (n % P + 1) := by
        have h := Nat.div_add_mod n P; omega
      have hmod : (n + 1) % P = (n % P + 1) % P := by rw [hn, Nat.mul_add_mod]
      have hdivq : (n + 1) / P = n / P + (n % P + 1) / P := by rw [hn, Nat.mul_add_div hP]
      have hcnt : (List.map (fun j => j % P) [n]).count i = if n % P = i then 1 else 0 := by
        simp [List.count_cons]
      by_cases hc : n % P + 1 < P
      · have h1 : (n + 1) % P = n % P + 1 := by rw [hmod]; exact Nat.mod_eq_of_lt hc
        have h2 : (n + 1) / P = n / P := by rw [hdivq, Nat.div_eq_of_lt hc, Nat.add_zero]
        rw [hcnt, h1, h2]
        split_ifs <;> omega
      · have hPeq : n % P + 1 = P := by omega
        have h1 : (n + 1) % P = 0 := by rw [hmod, hPeq, Nat.mod_self]
        have h2 : (n + 1) / P = n / P + 1 := by rw [hdivq, hPeq, Nat.div_self hP]
        rw [hcnt, h1, h2]
        split_ifs <;> omega

theorem ceil_div_of_mod_ne (N P : Nat) (hP : 0 < P) (hr : N % P ≠ 0) :
    (N + P - 1) / P = N / P + 1 := by
  have hd : (P - 1) / P = 0 := Nat.div_eq_of_lt (by omega)
  have hm : (P - 1) % P = P - 1 := Nat.mod_eq_of_lt (by omega)
  rw [Nat.add_sub_assoc hP, Nat.add_div hP, hd, hm, if_pos (by omega)]

/-! ### The claims -/

/-- C1: under the deterministic-hash (KeyBased) strategy, tasks submitted
with the same routing key execute in their admission order, regardless of
interleaved admissions with other keys: the sequence of key-`k` tasks
invoked by the worker that key `k` hashes to equals the sequence of
key-`k` tasks in the global admission order, for any admission sequence of
valid tasks. -/
theorem keybased_per_key_fifo (size wid now : Nat) (stk : String)
    (adm : List QueueItem) (k : String) (hP : 0 < size)
    (hv : ∀ it ∈ adm, validItem now it = true) :
    (executedTrace (Worker.runSteady wid now stk
        ((admitAll size adm).getD (kbIndex size k) []))).filter
        (fun it => decide (it.key = k))
      = adm.filter (fun it => decide (it.key = k)) := by
  have hi : kbIndex size k < size := Nat.mod_lt _ hP
  rw [admitAll_getD size adm _ hi,
    executedTrace_runSteady wid now stk _
      (fun it hit => hv it (List.mem_of_mem_filter hit))]
  exact filter_key_of_filter_route size k adm

/-- Witness for C1: the spec's concrete scenario — two workers, admissions
with keys "a", "b", "a"; the key-"a" subsequence of the executing worker's
trace is exactly the two "a" tasks in admission order. -/
theorem keybased_per_key_fifo_witness :
    (executedTrace (Worker.runSteady 0 0 ("t")
        ((admitAll 2 [witA1, witB1, witA2]).getD (kbIndex 2 ("a")) []))).filter
        (fun it => decide (it.key = "a"))
      = [witA1, witB1, witA2].filter (fun it => decide (it.key = "a")) :=
  keybased_per_key_fifo 2 0 0 ("t") [witA1, witB1, witA2] ("a") (by decide) (by decide)

/-- C2 (refuting trace): `Pool.Enqueue` releases the pool mutex between its
running-flag check and its channel send, so `Stop` is not atomic with
respect to admission: from a running pool with one empty buffer, the
interleaving (Enqueue checks `isRunning`, Stop runs to completion and
closes the buffer, Enqueue performs its send) reaches a send on a closed
channel — a Go runtime panic — contradicting the spec's "no send to a
closed buffer ever occurs". -/
theorem stop_enqueue_send_on_closed :
    Relation.ReflTransGen (RaceStep (PoolCfg.mk KeyBased 1) 0 ("tr"))
      (SysSt.mk true [CBuf.mk [] false] [],
        EnqPhase.ready ("k") (some FnBeh.ret) (EnqOptions.mk none none none),
        StopPhase.ready)
      (SysSt.mk false [CBuf.mk [] true] [], EnqPhase.crashed, StopPhase.done) := by
  refine Relation.ReflTransGen.head
    (RaceStep.checkPass _ _ ("k") (some FnBeh.ret) (EnqOptions.mk none none none)
      rfl rfl rfl) ?_
  refine Relation.ReflTransGen.head (RaceStep.stop _ _ rfl) ?_
  exact Relation.ReflTransGen.single (RaceStep.sendClosed _ _ _ _ (by decide))

/-- C3: after a recovered panic, the task's metadata carries the five
diagnostic entries — the recovered flag set to true, the panic value, the
panic time, the worker id, and a non-empty stack trace (the spec names
them `fault_*`; the source keys are `panic_recovered`, `panic_value`,
`panic_time`, `worker_id`, `stack_trace`) — and every caller-supplied key
is still present. -/
theorem fault_metadata_diagnostics (wid now : Nat) (stk : String) (it : QueueItem)
    (v : String) (hstk : stk ≠ "") :
    (Worker.safeExecute wid now stk it (FnBeh.panics v)).recovered = true ∧
    ∃ m, (Worker.safeExecute wid now stk it (FnBeh.panics v)).item.metadata = some m ∧
      mget m ("panic_recovered") = some (MVal.vB true) ∧
      mget m ("panic_value") = some (MVal.vS v) ∧
      mget m ("panic_time") = some (MVal.vT now) ∧
      mget m ("worker_id") = some (MVal.vI wid) ∧
      (∃ s, mget m ("stack_trace") = some (MVal.vS s) ∧ s ≠ "") ∧
      (∀ k, (mget (it.metadata.getD []) k).isSome → (mget m k).isSome) := by
  refine ⟨safeExecute_panics_recovered wid now stk it v,
    _, safeExecute_panics_metadata wid now stk it v, ?_, ?_, ?_, ?_, ?_, ?_⟩
  · rw [mget_mset_ne _ _ _ _ (by decide), mget_mset_ne _ _ _ _ (by decide),
      mget_mset_ne _ _ _ _ (by decide), mget_mset_ne _ _ _ _ (by decide),
      mget_mset_self]
  · rw [mget_mset_ne _ _ _ _ (by decide), mget_mset_ne _ _ _ _ (by decide),
      mget_mset_ne _ _ _ _ (by decide), mget_mset_self]
  · rw [mget_mset_ne _ _ _ _ (by decide), mget_mset_ne _ _ _ _ (by decide),
      mget_mset_self]
  · rw [mget_mset_ne _ _ _ _ (by decide), mget_mset_self]
  · exact ⟨stk, by rw [mget_mset_self], hstk⟩
  · intro k hk
    exact isSome_mget_mset _ _ _ _ (isSome_mget_mset _ _ _ _ (isSome_mget_mset _ _ _ _
      (isSome_mget_mset _ _ _ _ (isSome_mget_mset _ _ _ _ hk))))

/-- Witness for C3: a panicking task with one caller-supplied metadata
entry, executed on worker 4 at instant 9 with a non-empty stack trace. -/
theorem fault_metadata_diagnostics_witness :
    (Worker.safeExecute 4 9 ("goroutine 1") witPanics (FnBeh.panics "boom")).recovered
        = true ∧
    ∃ m, (Worker.safeExecute 4 9 ("goroutine 1") witPanics
        (FnBeh.panics "boom")).item.metadata = some m ∧
      mget m ("panic_recovered") = some (MVal.vB true) ∧
      mget m ("panic_value") = some (MVal.vS "boom") ∧
      mget m ("panic_time") = some (MVal.vT 9) ∧
      mget m ("worker_id") = some (MVal.vI 4) ∧
      (∃ s, mget m ("stack_trace") = some (MVal.vS s) ∧ s ≠ "") ∧
      (∀ k, (mget (witPanics.metadata.getD []) k).isSome → (mget m k).isSome) :=
  fault_metadata_diagnostics 4 9 ("goroutine 1") witPanics "boom" (by decide)

/-- C4: a panic in a unit of work is caught at that task's execution
boundary (`safeExecute` returns with the recovered flag instead of
crashing), the panic handler runs exactly once, the worker's loop goes on
— processing a panicking task is one step of the loop followed by the rest
— and the next valid dequeued task is still executed. -/
theorem fault_isolated_loop_continues (wid now : Nat) (stk : String)
    (p q : QueueItem) (v : String) (beh : FnBeh) (rest : List QueueItem)
    (hpf : p.fn = some (FnBeh.panics v)) (hpe : p.IsExpired now = false)
    (hpc : p.IsCancelled = false) (hqf : q.fn = some beh)
    (hqe : q.IsExpired now = false) (hqc : q.IsCancelled = false) :
    Worker.runSteady wid now stk (p :: q :: rest)
        = WEvent.executed p true
            :: WEvent.executed q
                (Worker.safeExecute wid now stk (ctxAdjust q) beh).recovered
            :: Worker.runSteady wid now stk rest ∧
    (Worker.safeExecute wid now stk (ctxAdjust p) (FnBeh.panics v)).handlerCalls = 1 := by
  constructor
  · rw [Worker.runSteady, Worker.runSteady,
      processItem_valid wid now stk p _ hpf hpe hpc,
      processItem_valid wid now stk q beh hqf hqe hqc,
      safeExecute_panics_recovered]
    rfl
  · exact safeExecute_panics_handler wid now stk (ctxAdjust p) v

/-- Witness for C4: a panicking task followed by a plain task; the loop
emits both executions and the handler ran once for the panic. -/
theorem fault_isolated_loop_continues_witness :
    Worker.runSteady 3 0 ("tr") [witPanics, witA1]
        = WEvent.executed witPanics true
            :: WEvent.executed witA1
                (Worker.safeExecute 3 0 ("tr") (ctxAdjust witA1) FnBeh.ret).recovered
            :: Worker.runSteady 3 0 ("tr") [] ∧
    (Worker.safeExecute 3 0 ("tr") (ctxAdjust witPanics)
        (FnBeh.panics "boom")).handlerCalls = 1 :=
  fault_isolated_loop_continues 3 0 ("tr") witPanics witA1 "boom" FnBeh.ret []
    rfl rfl rfl rfl rfl rfl

/-- C5: at dequeue — both in steady state and while draining — the
expiration check is applied first and the cancellation check second: an
expired task yields only the skipped-expired event (even if it is also
cancelled) and its unit of work is never invoked; a live but cancelled
task yields only the skipped-cancelled event and is never invoked. In the
drain path skipped tasks produce no event at all. -/
theorem dequeue_validation_order (wid now : Nat) (stk : String) (it : QueueItem) :
    (it.IsExpired now = true →
      Worker.processItem wid now stk it = [WEvent.skippedExpired it] ∧
      Worker.drainItem wid now stk it = [] ∧
      executedTrace (Worker.processItem wid now stk it) = []) ∧
    (it.IsExpired now = false → it.IsCancelled = true →
      Worker.processItem wid now stk it = [WEvent.skippedCancelled it] ∧
      Worker.drainItem wid now stk it = [] ∧
      executedTrace (Worker.processItem wid now stk it) = []) := by
  constructor
  · intro he
    refine ⟨?_, ?_, ?_⟩ <;> simp [Worker.processItem, Worker.drainItem, he, executedTrace]
  · intro he hc
    refine ⟨?_, ?_, ?_⟩ <;>
      simp [Worker.processItem, Worker.drainItem, he, hc, executedTrace]

/-- Witness for C5: an expired task (deadline 3, dequeued at 5) and a
cancelled task, in both the steady and the drain path. -/
theorem dequeue_validation_order_witness :
    (Worker.processItem 0 5 ("tr") witExpired = [WEvent.skippedExpired witExpired] ∧
      Worker.drainItem 0 5 ("tr") witExpired = [] ∧
      executedTrace (Worker.processItem 0 5 ("tr") witExpired) = []) ∧
    (Worker.processItem 0 5 ("tr") witCancelled
        = [WEvent.skippedCancelled witCancelled] ∧
      Worker.drainItem 0 5 ("tr") witCancelled = [] ∧
      executedTrace (Worker.processItem 0 5 ("tr") witCancelled) = []) :=
  ⟨(dequeue_validation_order 0 5 ("tr") witExpired).1 (by decide),
    (dequeue_validation_order 0 5 ("tr") witCancelled).2 (by decide) (by decide)⟩

/-- C6: `Enqueue` rejects synchronously with the explicit error — not
running when the pool is stopped or not started, already-expired when the
submitted expiration is in the past, already-cancelled when the
cancellation handle has fired — and on every rejection the pool state
(hence every worker's buffer and queue length) is unchanged: the task
never reaches any worker's buffer. -/
theorem enqueue_synchronous_rejection (cfg : PoolCfg) (st : PoolState) (now : Nat)
    (key : String) (fn : Option FnBeh) (opts : EnqOptions) :
    (st.isRunning = false →
      Pool.enqueue cfg st now key fn opts = (Except.error EnqErr.notRunning, st)) ∧
    (st.isRunning = true → timeExpired now opts.expireTime = true →
      Pool.enqueue cfg st now key fn opts = (Except.error EnqErr.itemExpired, st)) ∧
    (st.isRunning = true → timeExpired now opts.expireTime = false →
      ctxCancelled opts.itemCtx = true →
      Pool.enqueue cfg st now key fn opts = (Except.error EnqErr.itemCancelled, st)) := by
  refine ⟨fun h => ?_, fun h1 h2 => ?_, fun h1 h2 h3 => ?_⟩ <;>
    simp [Pool.enqueue, *]

/-- Witness for C6: the three rejections on concrete states — a stopped
pool, an expiration (instant 1) already past at submission time 5, and an
already-fired cancellation handle — each leaving the state untouched. -/
theorem enqueue_synchronous_rejection_witness :
    Pool.enqueue (PoolCfg.mk KeyBased 1) (PoolState.mk false 0 [[]]) 5 ("k") none
        (EnqOptions.mk none none none)
      = (Except.error EnqErr.notRunning, PoolState.mk false 0 [[]]) ∧
    Pool.enqueue (PoolCfg.mk KeyBased 1) (PoolState.mk true 0 [[]]) 5 ("k") none
        (EnqOptions.mk (some 1) none none)
      = (Except.error EnqErr.itemExpired, PoolState.mk true 0 [[]]) ∧
    Pool.enqueue (PoolCfg.mk KeyBased 1) (PoolState.mk true 0 [[]]) 5 ("k") none
        (EnqOptions.mk none (some (Ctx.mk true [])) none)
      = (Except.error EnqErr.itemCancelled, PoolState.mk true 0 [[]]) :=
  ⟨(enqueue_synchronous_rejection _ _ _ _ _ _).1 rfl,
    (enqueue_synchronous_rejection _ _ _ _ _ _).2.1 rfl rfl,
    (enqueue_synchronous_rejection _ _ _ _ _ _).2.2 rfl rfl rfl⟩

/-- C7: under the KeyBased strategy, routing is a pure deterministic
function of the key and the pool size: the chosen index is independent of
the mutable counter state, the state is left untouched, the result is
exactly the murmur3 hash of the key reduced modulo the pool size, and it
lies in `[0, poolSize)`. -/
theorem keybased_route_deterministic (cfg : PoolCfg) (rr rr' : Int) (k : String)
    (hs : cfg.strategy = KeyBased) (hP : 0 < cfg.size) :
    (Pool.to cfg rr k).1 = (Pool.to cfg rr' k).1 ∧
    (Pool.to cfg rr k).2 = rr ∧
    (Pool.to cfg rr k).1 = ((kbIndex cfg.size k : Nat) : Int) ∧
    0 ≤ (Pool.to cfg rr k).1 ∧
    (Pool.to cfg rr k).1 < (cfg.size : Int) := by
  have hcond : ¬ (cfg.strategy = RoundRobin) := by
    rw [hs]; decide
  have hto : ∀ s : Int, Pool.to cfg s k = (((kbIndex cfg.size k : Nat) : Int), s) :=
    fun s => by simp only [Pool.to, if_neg hcond]
  rw [hto rr, hto rr']
  refine ⟨rfl, rfl, rfl, Int.ofNat_nonneg _, ?_⟩
  have hklt : kbIndex cfg.size k < cfg.size := Nat.mod_lt _ hP
  show ((kbIndex cfg.size k : Nat) : Int) < (cfg.size : Int)
  exact_mod_cast hklt

/-- Witness for C7: key "a" on a pool of two workers, with two different
counter states 5 and 9. -/
theorem keybased_route_deterministic_witness :
    (Pool.to (PoolCfg.mk KeyBased 2) 5 ("a")).1
        = (Pool.to (PoolCfg.mk KeyBased 2) 9 ("a")).1 ∧
    (Pool.to (PoolCfg.mk KeyBased 2) 5 ("a")).2 = 5 ∧
    (Pool.to (PoolCfg.mk KeyBased 2) 5 ("a")).1 = ((kbIndex 2 ("a") : Nat) : Int) ∧
    0 ≤ (Pool.to (PoolCfg.mk KeyBased 2) 5 ("a")).1 ∧
    (Pool.to (PoolCfg.mk KeyBased 2) 5 ("a")).1 < ((2 : Nat) : Int) :=
  keybased_route_deterministic (PoolCfg.mk KeyBased 2) 5 9 ("a") rfl (by decide)

/-- C8: under the round-robin strategy the chosen index never depends on
the key, and starting from a fresh counter, `N` sequential routing calls
over a pool of size `P` (for any realistic `N`, i.e. within the `int64`
counter range) choose each index `i` exactly `⌊N/P⌋` or `⌈N/P⌉` times
(the ceiling written `(N + P - 1) / P`). -/
theorem roundrobin_distribution (P N i : Nat) (k k' : String) (hP : 0 < P)
    (hi : i < P) (hN : N ≤ 2 ^ 63) :
    (∀ rr : Int, Pool.to (PoolCfg.mk RoundRobin P) rr k
        = Pool.to (PoolCfg.mk RoundRobin P) rr k') ∧
    ((toCalls (PoolCfg.mk RoundRobin P) k 0 N).count ((i : Nat) : Int) = N / P ∨
      (toCalls (PoolCfg.mk RoundRobin P) k 0 N).count ((i : Nat) : Int)
        = (N + P - 1) / P) := by
  constructor
  · intro rr
    simp [Pool.to, RoundRobin]
  · have ht : toCalls (PoolCfg.mk RoundRobin P) k 0 N
        = (List.range' 0 N).map (fun j => ((j % P : Nat) : Int)) := by
      have h0 : ((0 : Nat) : Int) = (0 : Int) := rfl
      rw [← h0, toCalls_rr P k 0 N (by omega)]
    rw [ht, ← List.range_eq_range']
    have hcomp : (fun j => ((j % P : Nat) : Int))
        = (fun n : Nat => (n : Int)) ∘ (fun j => j % P) := rfl
    rw [hcomp, ← List.map_map]
    rw [List.count_map_of_injective _ _ Nat.cast_injective i,
      count_mod_range P i hP hi N]
    by_cases hlt : i < N % P
    · right
      rw [if_pos hlt, ceil_div_of_mod_ne N P hP (by omega)]
    · left
      rw [if_neg hlt]

/-- Witness for C8: seven sequential calls over three workers pick index 1
exactly `⌊7/3⌋ = 2` times, and keys "x" and "y" are interchangeable. -/
theorem roundrobin_distribution_witness :
    (∀ rr : Int, Pool.to (PoolCfg.mk RoundRobin 3) rr ("x")
        = Pool.to (PoolCfg.mk RoundRobin 3) rr ("y")) ∧
    ((toCalls (PoolCfg.mk RoundRobin 3) ("x") 0 7).count (((1 : Nat) : Int)) = 7 / 3 ∨
      (toCalls (PoolCfg.mk RoundRobin 3) ("x") 0 7).count (((1 : Nat) : Int))
        = (7 + 3 - 1) / 3) :=
  roundrobin_distribution 3 7 1 ("x") ("y") (by decide) (by decide) (by decide)

/-- C9: `NewPool` falls back to safe defaults for every invalid input: an
unrecognized strategy becomes KeyBased with a logged warning (never an
error — `NewPool` is total), a non-positive worker count yields exactly
one worker, a non-positive buffer capacity yields capacity 100; in
particular `NewPool(0, 0, KeyBased)` has exactly one worker with buffer
capacity 100. -/
theorem newpool_safe_defaults (ps bs s : Int) :
    ((s ≠ KeyBased ∧ s ≠ RoundRobin) →
      (NewPool ps bs s).strategy = KeyBased ∧ (NewPool ps bs s).warned = true) ∧
    (ps ≤ 0 → (NewPool ps bs s).size = 1 ∧ (NewPool ps bs s).workers.length = 1) ∧
    (bs ≤ 0 → ∀ w ∈ (NewPool ps bs s).workers, w.queueCap = 100) ∧
    (NewPool 0 0 KeyBased).size = 1 ∧
    (NewPool 0 0 KeyBased).workers = [WorkerInit.mk 0 100 []] := by
  refine ⟨fun h => ⟨?_, ?_⟩, fun h => ⟨?_, ?_⟩, fun h w hw => ?_, by decide, by decide⟩
  · show (if s ≠ KeyBased ∧ s ≠ RoundRobin then KeyBased else s) = KeyBased
    rw [if_pos h]
  · show decide (s ≠ KeyBased ∧ s ≠ RoundRobin) = true
    exact decide_eq_true h
  · show (if ps ≤ 0 then 1 else ps).toNat = 1
    rw [if_pos h]
    rfl
  · show ((List.range (if ps ≤ 0 then 1 else ps).toNat).map _).length = 1
    rw [List.length_map, List.length_range, if_pos h]
    rfl
  · simp only [NewPool, List.mem_map] at hw
    obtain ⟨i, _, rfl⟩ := hw
    show (if bs ≤ 0 then (100 : Int) else bs).toNat = 100
    rw [if_pos h]
    rfl

/-- Witness for C9: `NewPool 0 0 7` — non-positive sizes and an
unrecognized strategy value 7 — warns, falls back to KeyBased, and yields
one worker of capacity 100. -/
theorem newpool_safe_defaults_witness :
    ((NewPool 0 0 7).strategy = KeyBased ∧ (NewPool 0 0 7).warned = true) ∧
    ((NewPool 0 0 7).size = 1 ∧ (NewPool 0 0 7).workers.length = 1) ∧
    (∀ w ∈ (NewPool 0 0 7).workers, w.queueCap = 100) :=
  ⟨(newpool_safe_defaults 0 0 7).1 (by decide),
    (newpool_safe_defaults 0 0 7).2.1 (by decide),
    (newpool_safe_defaults 0 0 7).2.2.1 (by decide)⟩

/-- C10: the metadata copy made at admission isolates the enqueued item
from the caller: the fresh reference differs from the caller's, the copy
reads equal to the caller's map at admission time, and after any later
mutation of the caller's map the item's copy still reads as the map did at
admission time. -/
theorem enqueue_metadata_copy_frame (h : List Metadata) (r : Nat)
    (hr : r < h.length) (hnd : (mkeys (heapGet h r)).Nodup) :
    (enqueueCopyMeta h r).2 ≠ r ∧
    (∀ k, mget (heapGet (enqueueCopyMeta h r).1 (enqueueCopyMeta h r).2) k
        = mget (heapGet h r) k) ∧
    (∀ m' k, mget (heapGet (heapSet (enqueueCopyMeta h r).1 r m')
            (enqueueCopyMeta h r).2) k
        = mget (heapGet h r) k) := by
  have hfresh : heapGet (enqueueCopyMeta h r).1 (enqueueCopyMeta h r).2
      = copyMetadata (heapGet h r) := by
    show (h ++ [copyMetadata (heapGet h r)]).getD h.length [] = _
    simp [List.getD_eq_getElem?_getD, List.getElem?_concat_length]
  refine ⟨by show h.length ≠ r; omega, fun k => ?_, fun m' k => ?_⟩
  · rw [hfresh]
    exact copyMetadata_mget _ hnd k
  · have hset : heapGet (heapSet (enqueueCopyMeta h r).1 r m') (enqueueCopyMeta h r).2
        = copyMetadata (heapGet h r) := by
      show ((h ++ [copyMetadata (heapGet h r)]).set r m').getD h.length [] = _
      rw [List.getD_eq_getElem?_getD, List.getElem?_set_ne (by omega : r ≠ h.length)]
      simp [List.getElem?_concat_length]
    rw [hset]
    exact copyMetadata_mget _ hnd k

/-- Witness for C10: a one-slot store holding the caller's map
`[("job", 1)]`; the fresh copy reads the same, also after the caller's
slot is overwritten. -/
theorem enqueue_metadata_copy_frame_witness :
    (enqueueCopyMeta [[("job", MVal.vUser 1)]] 0).2 ≠ 0 ∧
    (∀ k, mget (heapGet (enqueueCopyMeta [[("job", MVal.vUser 1)]] 0).1
            (enqueueCopyMeta [[("job", MVal.vUser 1)]] 0).2) k
        = mget (heapGet [[("job", MVal.vUser 1)]] 0) k) ∧
    (∀ m' k, mget (heapGet (heapSet (enqueueCopyMeta [[("job", MVal.vUser 1)]] 0).1 0 m')
            (enqueueCopyMeta [[("job", MVal.vUser 1)]] 0).2) k
        = mget (heapGet [[("job", MVal.vUser 1)]] 0) k) :=
  enqueue_metadata_copy_frame [[("job", MVal.vUser 1)]] 0 (by decide) (by decide)

end GoToQueue
